import Mathlib

/-
Verification of the CompresseFacture bill-compressor core (compressor.py, app.py).

Shallow embedding conventions:
* Byte strings are `List Nat` (`Bytes`); only their contents and lengths matter.
* The PIL JPEG encoder is an oracle `enc : Int → Nat × Nat → Bytes` carried by
  each decoded image (`ImgModel`): given the JPEG quality and the pixel
  dimensions of the (possibly resampled) buffer it yields the encoded bytes.
* The float `scale` of compress_image_data only ever takes the values
  1.0, 0.9, ..., 0.3 (decrements of 0.1 from 1.0); it is modelled exactly in
  tenths as `scale10 : Nat` (10, 9, ..., 3).  For these values the Python float
  comparisons `scale >= 0.3` / `scale < 1.0` agree with the exact comparisons
  on tenths.
* The while-loop of compress_image_data is embedded structurally with a fuel
  argument (fuel 50 = ladderMeasure 80 10); `fullLadderF_fuel` and the last
  part of `ladder_monotone_terminates` show the loop halts before the fuel can
  run out, which is the termination argument of the original unbounded loop.
-/

def MAX_SIZE_KB : Nat := 200

def MAX_SIZE_BYTES : Nat := MAX_SIZE_KB * 1024

abbrev Bytes := List Nat

/-- Model of one decoded raster image: the raw file bytes it was opened from,
whether PIL could decode it, its pixel dimensions, and the JPEG-encoder oracle
(quality, resampled dimensions ↦ encoded bytes).  Mode conversion (RGBA
flattening etc.) is absorbed into the oracle. -/
structure ImgModel where
  origBytes : Bytes
  decodable : Bool
  width : Nat
  height : Nat
  enc : Int → Nat × Nat → Bytes

/-- The resize computation of compress_image_data (compressor.py lines 43-48):
`(max(1, int(width*scale)), max(1, int(height*scale)))` where `int` truncates;
with scale in exact tenths this is floor division by 10.  At `scale = 1.0`
(scale10 = 10) the original buffer is used unresampled. -/
def resizeDims (w h scale10 : Nat) : Nat × Nat :=
  if scale10 < 10 then (max 1 (w * scale10 / 10), max 1 (h * scale10 / 10))
  else (w, h)

/-- One rung of the degradation ladder as executed: the parameters, the
dimensions of the buffer that was encoded, whether it was resampled
(scale < 1.0), and the encoded result bytes. -/
structure Attempt where
  quality : Int
  scale10 : Nat
  dims : Nat × Nat
  resampled : Bool
  result : Bytes
deriving Repr, DecidableEq

/-- Encoding produced at a rung `(quality, scale10)`. -/
def encAt (img : ImgModel) (r : Int × Nat) : Bytes :=
  img.enc r.1 (resizeDims img.width img.height r.2)

def mkAttempt (img : ImgModel) (r : Int × Nat) : Attempt :=
  { quality := r.1, scale10 := r.2,
    dims := resizeDims img.width img.height r.2,
    resampled := decide (r.2 < 10),
    result := encAt img r }

/-- Upper bound on the number of iterations the ladder loop can still make
from state `(quality, scale10)`. -/
def ladderMeasure (quality : Int) (scale10 : Nat) : Nat :=
  (quality - 40).toNat + scale10

/-- The while-loop of compress_image_data (compressor.py lines 42-62),
embedded with a fuel argument; it also returns the list of attempts made.
`best` is the running `best_result` variable, updated to the latest encode
each iteration. -/
def cidLoopF (img : ImgModel) (target : Nat) (minQ : Int) :
    Nat → Int → Nat → Bytes → List Attempt → Bytes × List Attempt
  | 0, _, _, best, acc => (best, acc)
  | fuel + 1, quality, scale10, best, acc =>
    if minQ ≤ quality ∧ 3 ≤ scale10 then
      let result := encAt img (quality, scale10)
      let acc2 := acc ++ [mkAttempt img (quality, scale10)]
      if result.length ≤ target then (result, acc2)
      else if 40 < quality then
        cidLoopF img target minQ fuel (quality - 10) scale10 result acc2
      else
        cidLoopF img target minQ fuel (quality - 5) (scale10 - 1) result acc2
    else (best, acc)

/-- compress_image_data (compressor.py lines 20-64): undecodable input is
returned unchanged; otherwise run the ladder from quality 80, scale 1.0 with
`best_result` initialised to the original bytes. -/
def compress_image_data (img : ImgModel) (target : Nat) (minQ : Int) : Bytes :=
  if img.decodable then (cidLoopF img target minQ 50 80 10 img.origBytes []).1
  else img.origBytes

/-- The sequence of attempts the ladder loop actually makes. -/
def cidAttempts (img : ImgModel) (target : Nat) (minQ : Int) : List Attempt :=
  if img.decodable then (cidLoopF img target minQ 50 80 10 img.origBytes []).2
  else []

/-- The full rung sequence `(quality, scale10)` the loop would visit if no
encode ever met the target (the loop guard and step rules of lines 42, 58-62),
with the same fuel discipline as `cidLoopF`. -/
def fullLadderF (minQ : Int) : Nat → Int → Nat → List (Int × Nat)
  | 0, _, _ => []
  | fuel + 1, quality, scale10 =>
    if minQ ≤ quality ∧ 3 ≤ scale10 then
      (quality, scale10) ::
        (if 40 < quality then fullLadderF minQ fuel (quality - 10) scale10
         else fullLadderF minQ fuel (quality - 5) (scale10 - 1))
    else []

def fullLadder (minQ : Int) : List (Int × Nat) := fullLadderF minQ 50 80 10

/-- Does the encode at rung `r` meet the byte target? -/
def hitsTarget (img : ImgModel) (target : Nat) (r : Int × Nat) : Bool :=
  (encAt img r).length ≤ target

theorem getD_getLast?_map {α β : Type _} (f : α → β) :
    ∀ (l : List α) (a : α) (d : α) (d' : β),
      ((List.map f (a :: l)).getLast?).getD d' = f (((a :: l).getLast?).getD d) := by
  intro l
  induction l with
  | nil => intro a d d'; simp
  | cons b t ih =>
    intro a d d'
    rw [List.map_cons, List.map_cons, List.getLast?_cons_cons, List.getLast?_cons_cons]
    exact ih b d d'

/-- Characterisation of the loop over the rung sequence: it returns the encode
of the first rung meeting the target having tried exactly the rungs up to and
including it; if no rung meets the target it tries every rung and returns the
last encode (or `best` untouched when there are no rungs at all). -/
theorem cidLoopF_spec (img : ImgModel) (target : Nat) (minQ : Int) :
    ∀ (fuel : Nat) (q : Int) (s : Nat) (best : Bytes) (acc : List Attempt),
      cidLoopF img target minQ fuel q s best acc =
        match (fullLadderF minQ fuel q s).find? (hitsTarget img target) with
        | some r =>
          (encAt img r,
           acc ++ (((fullLadderF minQ fuel q s).takeWhile
                      (fun x => ! hitsTarget img target x)) ++ [r]).map (mkAttempt img))
        | none =>
          (((fullLadderF minQ fuel q s).map (encAt img)).getLastD best,
           acc ++ (fullLadderF minQ fuel q s).map (mkAttempt img)) := by
  intro fuel
  induction fuel with
  | zero =>
    intro q s best acc
    simp [cidLoopF, fullLadderF]
  | succ n ih =>
    intro q s best acc
    by_cases hg : minQ ≤ q ∧ 3 ≤ s
    · by_cases hh : hitsTarget img target (q, s) = true
      · have hlen : (encAt img (q, s)).length ≤ target := by
          simpa [hitsTarget] using hh
        simp [cidLoopF, fullLadderF, hg, hlen, List.find?_cons, hh, hitsTarget]
      · have hlen : ¬ (encAt img (q, s)).length ≤ target := by
          simpa [hitsTarget] using hh
        by_cases hq : 40 < q
        · rw [show cidLoopF img target minQ (n+1) q s best acc =
                cidLoopF img target minQ n (q - 10) s (encAt img (q, s))
                  (acc ++ [mkAttempt img (q, s)]) by
              simp [cidLoopF, hg, hlen, hq]]
          rw [ih]
          rw [show fullLadderF minQ (n+1) q s =
                (q, s) :: fullLadderF minQ n (q - 10) s by
              simp [fullLadderF, hg, hq]]
          rcases hf : (fullLadderF minQ n (q - 10) s).find? (hitsTarget img target) with
            _ | r
          · simp [List.find?_cons, hh, hf, List.getLastD_cons]
            cases hL : fullLadderF minQ n (q - 10) s with
            | nil => simp [hL] at hf ⊢
            | cons a l =>
              simp [hL, List.getLastD_cons]
              exact (getD_getLast?_map (encAt img) l a (q, s) best).symm
          · simp [List.find?_cons, hh, hf]
        · rw [show cidLoopF img target minQ (n+1) q s best acc =
                cidLoopF img target minQ n (q - 5) (s - 1) (encAt img (q, s))
                  (acc ++ [mkAttempt img (q, s)]) by
              simp [cidLoopF, hg, hlen, hq]]
          rw [ih]
          rw [show fullLadderF minQ (n+1) q s =
                (q, s) :: fullLadderF minQ n (q - 5) (s - 1) by
              simp [fullLadderF, hg, hq]]
          rcases hf : (fullLadderF minQ n (q - 5) (s - 1)).find? (hitsTarget img target) with
            _ | r
          · simp [List.find?_cons, hh, hf, List.getLastD_cons]
            cases hL : fullLadderF minQ n (q - 5) (s - 1) with
            | nil => simp [hL] at hf ⊢
            | cons a l =>
              simp [hL, List.getLastD_cons]
              exact (getD_getLast?_map (encAt img) l a (q, s) best).symm
          · simp [List.find?_cons, hh, hf]
    · simp [cidLoopF, fullLadderF, hg]

/-- Convenience form of `cidLoopF_spec` at the loop entry state. -/
theorem compress_image_data_cases (img : ImgModel) (target : Nat) (minQ : Int)
    (hdec : img.decodable = true) :
    compress_image_data img target minQ =
      (match (fullLadder minQ).find? (hitsTarget img target) with
       | some r => encAt img r
       | none => ((fullLadder minQ).map (encAt img)).getLastD img.origBytes) := by
  unfold compress_image_data fullLadder
  rw [hdec, if_pos rfl, cidLoopF_spec]
  rcases h : (fullLadderF minQ 50 80 10).find? (hitsTarget img target) with _ | r <;> simp [h]

/-- The attempts the loop makes: all failing rungs followed by the first hit,
or the whole rung sequence when no rung hits the target. -/
theorem cidAttempts_cases (img : ImgModel) (target : Nat) (minQ : Int)
    (hdec : img.decodable = true) :
    cidAttempts img target minQ =
      (match (fullLadder minQ).find? (hitsTarget img target) with
       | some r =>
         (((fullLadder minQ).takeWhile (fun x => ! hitsTarget img target x)) ++ [r]).map
           (mkAttempt img)
       | none => (fullLadder minQ).map (mkAttempt img)) := by
  unfold cidAttempts fullLadder
  rw [hdec, if_pos rfl, cidLoopF_spec]
  rcases h : (fullLadderF minQ 50 80 10).find? (hitsTarget img target) with _ | r <;> simp [h]

theorem fullLadderF_head (minQ : Int) :
    ∀ (fuel : Nat) (q : Int) (s : Nat) (x : Int × Nat),
      (fullLadderF minQ fuel q s).head? = some x → x = (q, s) := by
  intro fuel q s x h
  cases fuel with
  | zero => simp [fullLadderF] at h
  | succ n =>
    by_cases hg : minQ ≤ q ∧ 3 ≤ s
    · simp [fullLadderF, hg] at h
      exact h.symm
    · simp [fullLadderF, hg] at h

/-- The step relation between two successive rungs of the ladder: quality
strictly decreases (by 10 above the threshold 40, by 5 at or below it) and
scale never increases (it decreases by one tenth once quality is at or below
the threshold). -/
def rungStep (a b : Int × Nat) : Prop :=
  b.1 < a.1 ∧ b.2 ≤ a.2 ∧
    (if 40 < a.1 then b.1 = a.1 - 10 ∧ b.2 = a.2
     else b.1 = a.1 - 5 ∧ b.2 = a.2 - 1)

instance : DecidableRel rungStep := by
  intro a b
  unfold rungStep
  infer_instance

theorem fullLadderF_chain (minQ : Int) :
    ∀ (fuel : Nat) (q : Int) (s : Nat),
      List.Chain' rungStep (fullLadderF minQ fuel q s) := by
  intro fuel
  induction fuel with
  | zero => intro q s; simp [fullLadderF]
  | succ n ih =>
    intro q s
    by_cases hg : minQ ≤ q ∧ 3 ≤ s
    · rw [show fullLadderF minQ (n+1) q s =
            (q, s) :: (if 40 < q then fullLadderF minQ n (q - 10) s
                       else fullLadderF minQ n (q - 5) (s - 1)) by
          simp [fullLadderF, hg]]
      rw [List.chain'_cons']
      constructor
      · intro b hb
        by_cases hq : 40 < q
        · rw [if_pos hq] at hb
          have hb' := fullLadderF_head minQ n (q - 10) s b hb
          subst hb'
          refine ⟨by omega, le_refl s, ?_⟩
          rw [if_pos hq]
          exact ⟨rfl, rfl⟩
        · rw [if_neg hq] at hb
          have hb' := fullLadderF_head minQ n (q - 5) (s - 1) b hb
          subst hb'
          refine ⟨by omega, by omega, ?_⟩
          rw [if_neg hq]
          exact ⟨rfl, rfl⟩
      · by_cases hq : 40 < q
        · rw [if_pos hq]; exact ih (q - 10) s
        · rw [if_neg hq]; exact ih (q - 5) (s - 1)
    · simp [fullLadderF, hg]

/-- The rung sequence makes at most `(q-40+9)/10` high-quality steps plus
`s - 2` scale-decrement steps; at the entry state (80, 10) this bound is 12. -/
theorem fullLadderF_length (minQ : Int) :
    ∀ (fuel : Nat) (q : Int) (s : Nat),
      (fullLadderF minQ fuel q s).length ≤
        (if 40 < q then ((q - 40).toNat + 9) / 10 else 0) + (s - 2) := by
  intro fuel
  induction fuel with
  | zero => intro q s; simp [fullLadderF]
  | succ n ih =>
    intro q s
    by_cases hg : minQ ≤ q ∧ 3 ≤ s
    · rw [show fullLadderF minQ (n+1) q s =
            (q, s) :: (if 40 < q then fullLadderF minQ n (q - 10) s
                       else fullLadderF minQ n (q - 5) (s - 1)) by
          simp [fullLadderF, hg]]
      by_cases hq : 40 < q
      · have h1 := ih (q - 10) s
        rw [if_pos hq]
        simp only [List.length_cons]
        by_cases hq2 : 40 < q - 10
        · rw [if_pos hq2] at h1
          rw [if_pos hq]
          omega
        · rw [if_neg hq2] at h1
          rw [if_pos hq]
          omega
      · have h1 := ih (q - 5) (s - 1)
        rw [if_neg hq]
        simp only [List.length_cons]
        have hq2 : ¬ 40 < q - 5 := by omega
        rw [if_neg hq2] at h1
        rw [if_neg hq]
        omega
    · simp [fullLadderF, hg]

/-- Below the fuel needed by `ladderMeasure`, the rung sequence does not
depend on the fuel: the loop guard always fails before the fuel runs out. -/
theorem fullLadderF_fuel (minQ : Int) :
    ∀ (f g : Nat) (q : Int) (s : Nat),
      ladderMeasure q s ≤ f → ladderMeasure q s ≤ g →
      fullLadderF minQ f q s = fullLadderF minQ g q s := by
  intro f
  induction f with
  | zero =>
    intro g q s hf hg
    have hs : s = 0 := by unfold ladderMeasure at hf; omega
    cases g with
    | zero => rfl
    | succ m =>
      have : ¬ (minQ ≤ q ∧ 3 ≤ s) := by omega
      simp [fullLadderF, this]
  | succ n ih =>
    intro g q s hf hg
    cases g with
    | zero =>
      have hs : s = 0 := by unfold ladderMeasure at hg; omega
      have : ¬ (minQ ≤ q ∧ 3 ≤ s) := by omega
      simp [fullLadderF, this]
    | succ m =>
      by_cases hgu : minQ ≤ q ∧ 3 ≤ s
      · rw [show fullLadderF minQ (n+1) q s =
              (q, s) :: (if 40 < q then fullLadderF minQ n (q - 10) s
                          else fullLadderF minQ n (q - 5) (s - 1)) by
            simp [fullLadderF, hgu],
            show fullLadderF minQ (m+1) q s =
              (q, s) :: (if 40 < q then fullLadderF minQ m (q - 10) s
                          else fullLadderF minQ m (q - 5) (s - 1)) by
            simp [fullLadderF, hgu]]
      
        by_cases hq : 40 < q
        · rw [if_pos hq, if_pos hq,
              ih m (q - 10) s (by unfold ladderMeasure at hf ⊢; omega)
                (by unfold ladderMeasure at hg ⊢; omega)]
        · rw [if_neg hq, if_neg hq,
              ih m (q - 5) (s - 1) (by unfold ladderMeasure at hf ⊢; omega)
                (by unfold ladderMeasure at hg ⊢; omega)]
      · simp [fullLadderF, hgu]

theorem takeWhile_find_isPre {α : Type _} (p : α → Bool) :
    ∀ (L : List α) (r : α), L.find? p = some r →
      ∃ t, (L.takeWhile (fun x => ! p x) ++ [r]) ++ t = L := by
  intro L
  induction L with
  | nil => intro r h; simp at h
  | cons a l ih =>
    intro r h
    by_cases hp : p a = true
    · have ha : a = r := by simpa [List.find?_cons, hp] using h
      subst ha
      refine ⟨l, ?_⟩
      simp [List.takeWhile_cons, hp]
    · have hp' : p a = false := by simpa using hp
      have h' : l.find? p = some r := by simpa [List.find?_cons, hp'] using h
      obtain ⟨t, ht⟩ := ih r h'
      refine ⟨t, ?_⟩
      simpa [List.takeWhile_cons, hp', List.append_assoc] using ht

/-- The attempts actually made are an initial segment of the full rung
sequence, imaged under `mkAttempt`. -/
theorem cidAttempts_isPre (img : ImgModel) (target : Nat) (minQ : Int)
    (hdec : img.decodable = true) :
    ∃ RL t, RL ++ t = fullLadder minQ ∧
      cidAttempts img target minQ = RL.map (mkAttempt img) := by
  rw [cidAttempts_cases img target minQ hdec]
  rcases hf : (fullLadder minQ).find? (hitsTarget img target) with _ | r
  · exact ⟨fullLadder minQ, [], by simp, rfl⟩
  · obtain ⟨t, ht⟩ := takeWhile_find_isPre _ (fullLadder minQ) r hf
    exact ⟨_, t, ht, rfl⟩

/-- The step relation between two successive attempts of the loop (claim C6):
quality strictly decreases — by 10 while above 40, by 5 otherwise — and scale
never increases, decreasing by one tenth once quality is at or below 40. -/
def attemptStep (a b : Attempt) : Prop :=
  b.quality < a.quality ∧ b.scale10 ≤ a.scale10 ∧
    (if 40 < a.quality then b.quality = a.quality - 10 ∧ b.scale10 = a.scale10
     else b.quality = a.quality - 5 ∧ b.scale10 = a.scale10 - 1)

instance : DecidableRel attemptStep := by
  intro a b
  unfold attemptStep
  infer_instance

theorem rungStep_mkAttempt (img : ImgModel) (a b : Int × Nat) (h : rungStep a b) :
    attemptStep (mkAttempt img a) (mkAttempt img b) := by
  unfold rungStep at h
  unfold attemptStep mkAttempt
  simpa using h

theorem fullLadder_ne_nil (minQ : Int) (hq : minQ ≤ 80) : fullLadder minQ ≠ [] := by
  unfold fullLadder
  rw [show (50 : Nat) = 49 + 1 from rfl]
  simp [fullLadderF, hq]

/-- C2: for every decodable image, target, and min_quality ≤ 80, the
compressor returns the encode of the first ladder rung meeting the target,
trying no rung beyond it; when no rung meets the target it makes every
attempt of the ladder and returns the result of the last attempt made. -/
theorem image_first_hit (img : ImgModel) (target : Nat) (minQ : Int)
    (hdec : img.decodable = true) (hq : minQ ≤ 80) :
    (∀ r, (fullLadder minQ).find? (hitsTarget img target) = some r →
        compress_image_data img target minQ = encAt img r ∧
        cidAttempts img target minQ =
          (((fullLadder minQ).takeWhile (fun x => ! hitsTarget img target x)) ++ [r]).map
            (mkAttempt img)) ∧
    ((fullLadder minQ).find? (hitsTarget img target) = none →
        cidAttempts img target minQ = (fullLadder minQ).map (mkAttempt img) ∧
        cidAttempts img target minQ ≠ [] ∧
        compress_image_data img target minQ =
          ((cidAttempts img target minQ).map Attempt.result).getLastD img.origBytes) := by
  constructor
  · intro r hr
    rw [compress_image_data_cases img target minQ hdec,
        cidAttempts_cases img target minQ hdec, hr]
    exact ⟨rfl, rfl⟩
  · intro hn
    rw [compress_image_data_cases img target minQ hdec,
        cidAttempts_cases img target minQ hdec, hn]
    refine ⟨rfl, ?_, ?_⟩
    · simp [fullLadder_ne_nil minQ hq]
    · rw [List.map_map]
      rfl

/-- A concrete decodable image whose encoder yields `quality` bytes at any
dimensions: the ladder first meets a 35-byte target at rung (35, 0.9). -/
def imgW : ImgModel :=
  { origBytes := [0], decodable := true, width := 4, height := 4,
    enc := fun q _ => List.replicate q.toNat 0 }

theorem image_first_hit_witness :
    imgW.decodable = true ∧ (25 : Int) ≤ 80 ∧
    ((∀ r, (fullLadder 25).find? (hitsTarget imgW 35) = some r →
        compress_image_data imgW 35 25 = encAt imgW r ∧
        cidAttempts imgW 35 25 =
          (((fullLadder 25).takeWhile (fun x => ! hitsTarget imgW 35 x)) ++ [r]).map
            (mkAttempt imgW)) ∧
     ((fullLadder 25).find? (hitsTarget imgW 35) = none →
        cidAttempts imgW 35 25 = (fullLadder 25).map (mkAttempt imgW) ∧
        cidAttempts imgW 35 25 ≠ [] ∧
        compress_image_data imgW 35 25 =
          ((cidAttempts imgW 35 25).map Attempt.result).getLastD imgW.origBytes)) :=
  ⟨rfl, by decide, image_first_hit imgW 35 25 rfl (by decide)⟩

/-- C6: for every decodable image, target and min_quality, the attempts of the
degradation ladder form a chain in which quality strictly decreases (by 10
above 40, by 5 at or below) and the scale never increases (dropping one tenth
once quality is ≤ 40); the loop makes at most 12 attempts, and giving it any
larger iteration budget changes nothing — i.e. it terminates. -/
theorem ladder_monotone_terminates (img : ImgModel) (target : Nat) (minQ : Int)
    (hdec : img.decodable = true) :
    List.Chain' attemptStep (cidAttempts img target minQ) ∧
    (cidAttempts img target minQ).length ≤ 12 ∧
    (∀ fuel : Nat, 50 ≤ fuel →
      cidLoopF img target minQ fuel 80 10 img.origBytes [] =
        cidLoopF img target minQ 50 80 10 img.origBytes []) := by
  obtain ⟨RL, t, ht, hA⟩ := cidAttempts_isPre img target minQ hdec
  have hchainL : List.Chain' rungStep (fullLadder minQ) := fullLadderF_chain minQ 50 80 10
  have hpre : RL <+: fullLadder minQ := ⟨t, ht⟩
  have hchainRL : List.Chain' rungStep RL := List.Chain'.prefix hchainL hpre
  refine ⟨?_, ?_, ?_⟩
  · rw [hA, List.chain'_map]
    exact hchainRL.imp (fun a b h => rungStep_mkAttempt img a b h)
  · rw [hA, List.length_map]
    have h1 : RL.length ≤ (fullLadder minQ).length := by
      rw [← ht]; simp
    have h3 := fullLadderF_length minQ 50 80 10
    have h4 : (if 40 < (80 : Int) then (((80 : Int) - 40).toNat + 9) / 10 else 0) +
        (10 - 2) = 12 := by decide
    rw [h4] at h3
    have h2 : (fullLadder minQ).length ≤ 12 := by unfold fullLadder; exact h3
    omega
  · intro fuel hf
    rw [cidLoopF_spec, cidLoopF_spec,
        fullLadderF_fuel minQ fuel 50 80 10 (by unfold ladderMeasure; omega)
          (by unfold ladderMeasure; omega)]

theorem ladder_monotone_terminates_witness :
    imgW.decodable = true ∧
    (List.Chain' attemptStep (cidAttempts imgW 35 25) ∧
     (cidAttempts imgW 35 25).length ≤ 12 ∧
     (∀ fuel : Nat, 50 ≤ fuel →
       cidLoopF imgW 35 25 fuel 80 10 imgW.origBytes [] =
         cidLoopF imgW 35 25 50 80 10 imgW.origBytes [])) :=
  ⟨rfl, ladder_monotone_terminates imgW 35 25 rfl⟩

/-- Python 3 round() to the nearest integer of `n / 10`, halves to even.
Modelled from the spec: claim C7 states the resampled dimensions use
`round(width*scale)`; this is that rounding on exact tenths. -/
def pyRound10 (n : Nat) : Nat :=
  if n % 10 < 5 then n / 10
  else if 5 < n % 10 then n / 10 + 1
  else if (n / 10) % 2 = 0 then n / 10 else n / 10 + 1

/-- Modelled from the spec: the resize rule as claim C7 words it (round, not
truncate), to be compared with `resizeDims`, the rule the source implements. -/
def resizeDimsRound (w h scale10 : Nat) : Nat × Nat :=
  if scale10 < 10 then (max 1 (pyRound10 (w * scale10)), max 1 (pyRound10 (h * scale10)))
  else (w, h)

/-- A 15×15 decodable image whose encoder returns as many bytes as the buffer
is wide: with target 13 the ladder reaches rung (35, 0.9), where
`int(15*0.9) = 13` but `round(15*0.9) = 14`. -/
def imgC7 : ImgModel :=
  { origBytes := [0], decodable := true, width := 15, height := 15,
    enc := fun _ dims => List.replicate dims.1 0 }

/-- C7 counterexample: at the rung with scale 0.9 the loop encodes a buffer of
dimensions (13, 13) — truncation — while the claim's `round(width*scale)`
formula gives (14, 14). -/
theorem resize_rounding_counterexample :
    (cidAttempts imgC7 13 25).getLast? =
      some { quality := 35, scale10 := 9, dims := (13, 13), resampled := true,
             result := List.replicate 13 0 } ∧
    resizeDimsRound imgC7.width imgC7.height 9 = (14, 14) ∧
    ((13, 13) : Nat × Nat) ≠ ((14, 14) : Nat × Nat) := by
  refine ⟨by decide, by decide, by decide⟩

/-- C7 (amended): at every rung the loop performs with scale < 1.0 it encodes
the image resampled to `(max 1 ⌊width*scale⌋, max 1 ⌊height*scale⌋)` — Python
`int()` truncation, not `round()` — and at scale = 1.0 it encodes the original
unresampled buffer. -/
theorem resize_truncates (img : ImgModel) (target : Nat) (minQ : Int) (a : Attempt)
    (ha : a ∈ cidAttempts img target minQ) :
    (a.scale10 < 10 →
      a.dims = (max 1 (img.width * a.scale10 / 10), max 1 (img.height * a.scale10 / 10)) ∧
      a.resampled = true) ∧
    (10 ≤ a.scale10 → a.dims = (img.width, img.height) ∧ a.resampled = false) := by
  by_cases hdec : img.decodable = true
  · obtain ⟨RL, t, ht, hA⟩ := cidAttempts_isPre img target minQ hdec
    rw [hA] at ha
    obtain ⟨r, _, hr⟩ := List.mem_map.mp ha
    subst hr
    simp only [mkAttempt, resizeDims]
    constructor
    · intro hs
      rw [if_pos hs]
      simp [hs]
    · intro hs
      have hs' : ¬ r.2 < 10 := by omega
      rw [if_neg hs']
      simp [hs']
  · have hd : img.decodable = false := by
      cases h : img.decodable
      · rfl
      · exact absurd h hdec
    rw [show cidAttempts img target minQ = [] by unfold cidAttempts; rw [hd]; simp] at ha
    simp at ha

theorem resize_truncates_witness :
    ({ quality := 35, scale10 := 9, dims := (13, 13), resampled := true,
       result := List.replicate 13 0 } : Attempt) ∈ cidAttempts imgC7 13 25 ∧
    ((9 < 10 →
      ((13, 13) : Nat × Nat) = (max 1 (imgC7.width * 9 / 10), max 1 (imgC7.height * 9 / 10)) ∧
      true = true) ∧
     (10 ≤ 9 → ((13, 13) : Nat × Nat) = (imgC7.width, imgC7.height) ∧ true = false)) :=
  ⟨by decide,
   resize_truncates imgC7 13 25
     { quality := 35, scale10 := 9, dims := (13, 13), resampled := true,
       result := List.replicate 13 0 } (by decide)⟩

/-- One image XObject of a page: its object name (modelled as a number), the
/Width and /Height entries, whether the `int(...)`/`get_data()` step succeeds
(the try/except of compressor.py lines 93-108), and the PIL-level model of its
decoded data; `img.origBytes` is the data `get_data()` returns. -/
structure PdfImage where
  name : Nat
  pdfW : Int
  pdfH : Int
  decodeOk : Bool
  img : ImgModel

/-- One PDF page: its image XObjects (non-image XObjects and pages without
/XObject resources are represented by an empty or shorter list). -/
structure PdfPage where
  images : List PdfImage

/-- A source PDF file: its raw bytes, its pages, whether the pypdf
read/rewrite pipeline succeeds (the try of compressor.py line 143), and the
serialized sizes the two pypdf rewrites produce — `losslessSize` for the first
writer (content streams compressed, metadata copied, line 154) and `s2Size`
for the second writer (line 189).  The second writer differs from the first
only in metadata handling, because the recompressed images are never installed
(see `pdf_images_not_replaced`); its size is therefore a separate oracle. -/
structure PdfFile where
  bytes : Bytes
  pages : List PdfPage
  parseOk : Bool
  losslessSize : Nat
  s2Size : Nat

/-- The image streams present in a document written from `p`'s pages:
pypdf's compress_content_streams touches content streams only, so every image
XObject keeps its original data. -/
def pdfImageStreams (p : PdfFile) : List (Nat × Nat × Bytes) :=
  p.pages.enum.flatMap fun pp =>
    pp.2.images.map fun im => (pp.1, im.name, im.img.origBytes)

/-- The images_info collection of extract_and_compress_pdf_images
(compressor.py lines 82-108): images with positive dimensions whose metadata
and data can be read, tagged with their page number. -/
def extractImagesInfo (p : PdfFile) : List (Nat × PdfImage) :=
  p.pages.enum.flatMap fun pp =>
    pp.2.images.filterMap fun im =>
      if im.decodeOk = true ∧ 0 < im.pdfW ∧ 0 < im.pdfH then some (pp.1, im) else none

/-- extract_and_compress_pdf_images (compressor.py lines 80-132): nothing to
do when there are no images or they already fit the budget; otherwise each
image is recompressed to `max(target_total // count, 10 KiB)` with
min_quality 20, keyed by (page, name). -/
def extract_and_compress_pdf_images (p : PdfFile) (targetTotal : Nat) :
    List ((Nat × Nat) × Bytes) :=
  if (extractImagesInfo p).isEmpty then []
  else if ((extractImagesInfo p).map fun x => x.2.img.origBytes.length).sum ≤ targetTotal then
    []
  else
    (extractImagesInfo p).map fun x =>
      ((x.1, x.2.name),
       compress_image_data x.2.img
         (max (targetTotal / (extractImagesInfo p).length) (10 * 1024)) 20)

inductive Strategy
  | passthrough
  | lossless
  | s2
deriving Repr, DecidableEq

/-- The file compress_pdf leaves at output_path: its exact bytes when they are
known to equal the input (passthrough copy), its size, the image streams it
contains, and which rewrite produced it. -/
structure PdfOutput where
  bytes? : Option Bytes
  size : Nat
  imageStreams : List (Nat × Nat × Bytes)
  strategy : Strategy

/-- Result of compress_pdf, instrumented with the number of full-page
rasterization passes performed (the code performs none — it has no rasterizer)
and with the mapping the image-recompression step computed. -/
structure PdfResult where
  out : PdfOutput
  succeeded : Bool
  rasterRetries : Nat
  imagesRecompressed : List ((Nat × Nat) × Bytes)

/-- compress_pdf (compressor.py lines 135-204).  Branches, in source order:
passthrough when the source already fits (line 139); the lossless rewrite when
its buffer fits (line 156); otherwise the second rewrite is written and, when
its size exceeds the budget and half the original size (`> original * 0.5` is
`2 * final > original` exactly, since halving is exact), it is replaced by the
lossless buffer (lines 196-198); the final flag re-reads the output size
(line 200).  A failure inside the try copies the input unchanged and reports
whether the copy fits (lines 202-204).  The recompressed images are computed
(line 165) but never installed in the output, so every branch's
`imageStreams` are the originals. -/
def compress_pdf (p : PdfFile) : PdfResult :=
  if p.bytes.length ≤ MAX_SIZE_BYTES then
    { out := { bytes? := some p.bytes, size := p.bytes.length,
               imageStreams := pdfImageStreams p, strategy := Strategy.passthrough },
      succeeded := true, rasterRetries := 0, imagesRecompressed := [] }
  else if p.parseOk then
    if p.losslessSize ≤ MAX_SIZE_BYTES then
      { out := { bytes? := none, size := p.losslessSize,
                 imageStreams := pdfImageStreams p, strategy := Strategy.lossless },
        succeeded := true, rasterRetries := 0, imagesRecompressed := [] }
    else if MAX_SIZE_BYTES < p.s2Size ∧ p.bytes.length < 2 * p.s2Size then
      { out := { bytes? := none, size := p.losslessSize,
                 imageStreams := pdfImageStreams p, strategy := Strategy.lossless },
        succeeded := decide (p.losslessSize ≤ MAX_SIZE_BYTES), rasterRetries := 0,
        imagesRecompressed := extract_and_compress_pdf_images p (MAX_SIZE_BYTES - 20 * 1024) }
    else
      { out := { bytes? := none, size := p.s2Size,
                 imageStreams := pdfImageStreams p, strategy := Strategy.s2 },
        succeeded := decide (p.s2Size ≤ MAX_SIZE_BYTES), rasterRetries := 0,
        imagesRecompressed := extract_and_compress_pdf_images p (MAX_SIZE_BYTES - 20 * 1024) }
  else
    { out := { bytes? := some p.bytes, size := p.bytes.length,
               imageStreams := pdfImageStreams p, strategy := Strategy.passthrough },
      succeeded := decide (p.bytes.length ≤ MAX_SIZE_BYTES), rasterRetries := 0,
      imagesRecompressed := [] }

/-- compress_image_file (compressor.py lines 67-77): compress the file's bytes
to MAX_SIZE_BYTES with the default min_quality 25, write the result, and
report whether what was written fits.  Returns (flag, bytes written). -/
def compress_image_file (img : ImgModel) : Bool × Bytes :=
  (decide ((compress_image_data img MAX_SIZE_BYTES 25).length ≤ MAX_SIZE_BYTES),
   compress_image_data img MAX_SIZE_BYTES 25)

/-- C5: for both entry points the success flag is true exactly when the bytes
left on disk fit the 200 KiB budget — including the caught-exception
passthrough branch of compress_pdf; success is never mere absence of error. -/
theorem success_iff_fits (p : PdfFile) (img : ImgModel) :
    ((compress_pdf p).succeeded = true ↔ (compress_pdf p).out.size ≤ MAX_SIZE_BYTES) ∧
    ((compress_image_file img).1 = true ↔
      (compress_image_file img).2.length ≤ MAX_SIZE_BYTES) := by
  constructor
  · unfold compress_pdf
    by_cases h1 : p.bytes.length ≤ MAX_SIZE_BYTES
    · simp [h1]
    · rw [if_neg h1]
      by_cases h2 : p.parseOk = true
      · rw [if_pos h2]
        by_cases h3 : p.losslessSize ≤ MAX_SIZE_BYTES
        · simp [h3]
        · rw [if_neg h3]
          by_cases h4 : MAX_SIZE_BYTES < p.s2Size ∧ p.bytes.length < 2 * p.s2Size
          · simp [h4, h3]
          · simp [h4]
      · rw [if_neg h2]
        simp
  · unfold compress_image_file
    simp

/-- C8: a PDF whose source size already fits the budget is copied unchanged —
the output bytes are the input bytes — with success reported and no rewrite or
image recompression attempted. -/
theorem passthrough_byte_identical (p : PdfFile)
    (h : p.bytes.length ≤ MAX_SIZE_BYTES) :
    (compress_pdf p).out.bytes? = some p.bytes ∧
    (compress_pdf p).succeeded = true ∧
    (compress_pdf p).out.strategy = Strategy.passthrough ∧
    (compress_pdf p).imagesRecompressed = [] := by
  unfold compress_pdf
  rw [if_pos h]
  exact ⟨rfl, rfl, rfl, rfl⟩

/-- A three-byte PDF: trivially under the budget. -/
def pdfSmall : PdfFile :=
  { bytes := [1, 2, 3], pages := [], parseOk := true, losslessSize := 0, s2Size := 0 }

theorem passthrough_byte_identical_witness :
    pdfSmall.bytes.length ≤ MAX_SIZE_BYTES ∧
    ((compress_pdf pdfSmall).out.bytes? = some pdfSmall.bytes ∧
     (compress_pdf pdfSmall).succeeded = true ∧
     (compress_pdf pdfSmall).out.strategy = Strategy.passthrough ∧
     (compress_pdf pdfSmall).imagesRecompressed = []) :=
  ⟨by decide, passthrough_byte_identical pdfSmall (by decide)⟩

/-- C9: when the second (aggressive) rewrite still exceeds the target AND
exceeds half the original size, compress_pdf replaces the output with the
lossless-rewrite result, so the final output is the S1 buffer. -/
theorem s2_regression_guard (p : PdfFile)
    (h1 : MAX_SIZE_BYTES < p.bytes.length) (h2 : p.parseOk = true)
    (h3 : MAX_SIZE_BYTES < p.losslessSize)
    (h4 : MAX_SIZE_BYTES < p.s2Size) (h5 : p.bytes.length < 2 * p.s2Size) :
    (compress_pdf p).out.strategy = Strategy.lossless ∧
    (compress_pdf p).out.size = p.losslessSize := by
  unfold compress_pdf
  rw [if_neg (by omega), if_pos h2, if_neg (by omega), if_pos ⟨h4, h5⟩]
  exact ⟨rfl, rfl⟩

/-- A 204801-byte PDF (one byte over budget) whose lossless rewrite
serializes to 230000 bytes and whose second rewrite serializes to
220000 bytes. -/
def pdfBig : PdfFile :=
  { bytes := List.replicate 204801 0, pages := [], parseOk := true,
    losslessSize := 230000, s2Size := 220000 }

theorem pdfBig_len : pdfBig.bytes.length = 204801 := List.length_replicate 204801 0

theorem s2_regression_guard_witness :
    (MAX_SIZE_BYTES < pdfBig.bytes.length ∧ MAX_SIZE_BYTES < pdfBig.losslessSize ∧
     MAX_SIZE_BYTES < pdfBig.s2Size ∧ pdfBig.bytes.length < 2 * pdfBig.s2Size) ∧
    ((compress_pdf pdfBig).out.strategy = Strategy.lossless ∧
     (compress_pdf pdfBig).out.size = pdfBig.losslessSize) :=
  ⟨⟨by rw [pdfBig_len]; decide, by decide, by decide, by rw [pdfBig_len]; decide⟩,
   s2_regression_guard pdfBig
     (by rw [pdfBig_len]; decide) rfl (by decide) (by decide)
     (by rw [pdfBig_len]; decide)⟩

/-- C4 counterexample: on a PDF for which the image-budget rewrite's result
still exceeds the target, compress_pdf performs zero full-page rasterization
passes, not the one retry the claim describes (the code contains no
rasterizer at all). -/
theorem no_raster_retry_counterexample :
    MAX_SIZE_BYTES < pdfBig.bytes.length ∧ pdfBig.parseOk = true ∧
    MAX_SIZE_BYTES < pdfBig.losslessSize ∧ MAX_SIZE_BYTES < pdfBig.s2Size ∧
    ¬ (compress_pdf pdfBig).rasterRetries = 1 := by
  refine ⟨by rw [pdfBig_len]; decide, rfl, by decide, by decide, ?_⟩
  have h0 : (compress_pdf pdfBig).rasterRetries = 0 := by
    unfold compress_pdf
    rw [if_neg (by rw [pdfBig_len]; decide), if_pos (show pdfBig.parseOk = true from rfl), if_neg (by decide)]
    by_cases h : MAX_SIZE_BYTES < pdfBig.s2Size ∧ pdfBig.bytes.length < 2 * pdfBig.s2Size
    · rw [if_pos h]
    · rw [if_neg h]
  omega

/-- C4 (amended): when both rewrites exceed the target, compress_pdf performs
no rasterization retry; it applies the regression guard and returns
succeeded = (final_size ≤ target), which is then false. -/
theorem no_raster_retry_amended (p : PdfFile)
    (h1 : MAX_SIZE_BYTES < p.bytes.length) (h2 : p.parseOk = true)
    (h3 : MAX_SIZE_BYTES < p.losslessSize) (h4 : MAX_SIZE_BYTES < p.s2Size) :
    (compress_pdf p).rasterRetries = 0 ∧
    MAX_SIZE_BYTES < (compress_pdf p).out.size ∧
    (compress_pdf p).succeeded = false := by
  unfold compress_pdf
  rw [if_neg (by omega), if_pos h2, if_neg (by omega)]
  by_cases h5 : MAX_SIZE_BYTES < p.s2Size ∧ p.bytes.length < 2 * p.s2Size
  · rw [if_pos h5]
    refine ⟨rfl, h3, ?_⟩
    simp only [decide_eq_false_iff_not]
    omega
  · rw [if_neg h5]
    refine ⟨rfl, h4, ?_⟩
    simp only [decide_eq_false_iff_not]
    omega

theorem no_raster_retry_amended_witness :
    (MAX_SIZE_BYTES < pdfBig.bytes.length ∧ pdfBig.parseOk = true ∧
     MAX_SIZE_BYTES < pdfBig.losslessSize ∧ MAX_SIZE_BYTES < pdfBig.s2Size) ∧
    ((compress_pdf pdfBig).rasterRetries = 0 ∧
     MAX_SIZE_BYTES < (compress_pdf pdfBig).out.size ∧
     (compress_pdf pdfBig).succeeded = false) :=
  ⟨⟨by rw [pdfBig_len]; decide, rfl, by decide, by decide⟩,
   no_raster_retry_amended pdfBig
     (by rw [pdfBig_len]; decide) rfl (by decide) (by decide)⟩

/-- A 190000-byte embedded image that PIL decodes as 100×100 and whose
re-encode at any rung is the single byte [7]. -/
def bigImg : ImgModel :=
  { origBytes := List.replicate 190000 7, decodable := true, width := 100, height := 100,
    enc := fun _ _ => [7] }

def pdfImg1 : PdfImage :=
  { name := 5, pdfW := 100, pdfH := 100, decodeOk := true, img := bigImg }

/-- A 204801-byte PDF with one embedded 190000-byte image, whose lossless
rewrite is 230000 bytes and whose second rewrite is 220000 bytes: it reaches
the image-budget strategy with the image over the 184320-byte budget. -/
def pdfC1 : PdfFile :=
  { bytes := List.replicate 204801 0, pages := [{ images := [pdfImg1] }],
    parseOk := true, losslessSize := 230000, s2Size := 220000 }

theorem pdfC1_infos : extractImagesInfo pdfC1 = [(0, pdfImg1)] := rfl

theorem pdfImg1_data_len : pdfImg1.img.origBytes.length = 190000 :=
  List.length_replicate 190000 7

theorem pdfC1_imgsum :
    ((extractImagesInfo pdfC1).map fun x => x.2.img.origBytes.length).sum = 190000 := by
  rw [pdfC1_infos]
  simp only [List.map_cons, List.map_nil, List.sum_cons, List.sum_nil,
    pdfImg1_data_len, Nat.add_zero]

theorem pdfC1_extract :
    extract_and_compress_pdf_images pdfC1 (MAX_SIZE_BYTES - 20 * 1024) =
      [((0, 5), [7])] := by
  unfold extract_and_compress_pdf_images
  rw [if_neg (by rw [pdfC1_infos]; decide), if_neg (by rw [pdfC1_imgsum]; decide),
      pdfC1_infos]
  rfl

theorem pdfC1_len : pdfC1.bytes.length = 204801 := List.length_replicate 204801 0

/-- C1 failing input: on `pdfC1` the source exceeds the budget, the lossless
rewrite exceeds the budget, the embedded images exceed the image budget, and
the recompression step computes a replacement blob [7] for image (0, 5) — yet
the written document still carries the original 190000-byte stream: the
replacement is computed and discarded (compressor.py lines 174-183 build
`img_buffer` and never install it). -/
theorem pdf_images_not_replaced :
    MAX_SIZE_BYTES < pdfC1.bytes.length ∧
    pdfC1.parseOk = true ∧
    MAX_SIZE_BYTES < pdfC1.losslessSize ∧
    MAX_SIZE_BYTES - 20 * 1024 <
      ((extractImagesInfo pdfC1).map fun x => x.2.img.origBytes.length).sum ∧
    (compress_pdf pdfC1).imagesRecompressed = [((0, 5), [7])] ∧
    (compress_pdf pdfC1).out.imageStreams = [(0, 5, List.replicate 190000 7)] ∧
    ([7] : Bytes) ≠ List.replicate 190000 7 := by
  have hstreams : pdfImageStreams pdfC1 = [(0, 5, List.replicate 190000 7)] := rfl
  have hc : MAX_SIZE_BYTES < pdfC1.s2Size ∧ pdfC1.bytes.length < 2 * pdfC1.s2Size :=
    ⟨by decide, by rw [pdfC1_len]; decide⟩
  refine ⟨by rw [pdfC1_len]; decide, rfl, by decide, by rw [pdfC1_imgsum]; decide,
          ?_, ?_, ?_⟩
  · unfold compress_pdf
    rw [if_neg (by rw [pdfC1_len]; decide), if_pos (show pdfC1.parseOk = true from rfl),
        if_neg (by decide), if_pos hc, pdfC1_extract]
  · unfold compress_pdf
    rw [if_neg (by rw [pdfC1_len]; decide), if_pos (show pdfC1.parseOk = true from rfl),
        if_neg (by decide), if_pos hc, hstreams]
  · intro hEq
    have h2 := congrArg List.length hEq
    rw [List.length_replicate] at h2
    exact absurd h2 (by decide)

/-- A Python function's positional signature: `required` parameters have no
default, `optional` ones do.  A positional call binds iff the argument count
lies between `required` and `required + optional`; otherwise the call raises
TypeError. -/
structure PyFunc where
  required : Nat
  optional : Nat

def acceptsPositional (f : PyFunc) (n : Nat) : Bool :=
  decide (f.required ≤ n ∧ n ≤ f.required + f.optional)

/-- compressor.process_files (compressor.py lines 232-236): parameters
file_paths and output_zip_path are required, progress_callback defaults to
None. -/
def process_files_signature : PyFunc := { required := 2, optional := 1 }

/-- The call in CompressorApp._run_compression (app.py lines 178-183):
process_files(self.files, output_folder, output_zip, progress_callback) —
four positional arguments. -/
def run_compression_arg_count : Nat := 4

inductive GuiDisplay
  | results
  | errorPane
deriving Repr, DecidableEq

/-- The try/except of _run_compression (app.py lines 177-186): a call that
binds and returns shows the results pane; an exception shows the error pane. -/
def run_compression_outcome : GuiDisplay :=
  if acceptsPositional process_files_signature run_compression_arg_count then
    GuiDisplay.results
  else GuiDisplay.errorPane

/-- C3: the GUI passes four positional arguments to a function accepting at
most three, so the call never binds: every GUI-triggered batch raises
TypeError before any file is processed and the error pane is shown instead of
the results display. -/
theorem gui_call_arity_mismatch :
    acceptsPositional process_files_signature run_compression_arg_count = false ∧
    run_compression_outcome = GuiDisplay.errorPane := by decide

/-- The stats dict of process_files (compressor.py lines 241-246, 278). -/
structure BatchStats where
  total : Nat
  success : Nat
  failed : Nat
  details : List (String × String)
  zipSizeKb : Nat
deriving Repr, DecidableEq

/-- What compress_file does for one input, as the orchestrator sees it:
either (output_path, success, size_kb) or a raised exception's message. -/
abbrev JobOutcome := Except String (String × Bool × Nat)

/-- The (filename, status) pair the loop body appends for one job
(compressor.py lines 257-271): OK when success and a non-empty output path,
"Trop gros" otherwise, and for an exception "Erreur:" with the message
truncated to 30 characters (`str(e)[:30]`). -/
def detailOf (job : String × JobOutcome) : String × String :=
  match job.2 with
  | Except.ok (outPath, success, sizeKb) =>
    if success = true ∧ outPath ≠ "" then
      (job.1, "OK (" ++ toString sizeKb ++ " Ko)")
    else
      (job.1, "Trop gros (" ++ toString sizeKb ++ " Ko)")
  | Except.error e => (job.1, "Erreur: " ++ e.take 30)

/-- One iteration of the loop of process_files (compressor.py lines 251-271):
exactly one of success/failed is incremented and one detail appended; an
exception from compress_file is caught here and recorded, never propagated. -/
def processOne (st : BatchStats) (job : String × JobOutcome) : BatchStats :=
  match job.2 with
  | Except.ok (outPath, success, _) =>
    if success = true ∧ outPath ≠ "" then
      { st with success := st.success + 1, details := st.details ++ [detailOf job] }
    else
      { st with failed := st.failed + 1, details := st.details ++ [detailOf job] }
  | Except.error _ =>
    { st with failed := st.failed + 1, details := st.details ++ [detailOf job] }

/-- process_files (compressor.py lines 232-283): fold the loop over the jobs
in order, then write the ZIP; a ZIP-writing failure propagates (batch-fatal),
a success records the archive size. -/
def process_files (jobs : List (String × JobOutcome)) (zipResult : Except String Nat) :
    Except String BatchStats :=
  match zipResult with
  | Except.ok z =>
    Except.ok
      { jobs.foldl processOne
          { total := jobs.length, success := 0, failed := 0, details := [],
            zipSizeKb := 0 } with
        zipSizeKb := z }
  | Except.error e => Except.error e

theorem processOne_fields (st : BatchStats) (job : String × JobOutcome) :
    (processOne st job).total = st.total ∧
    (processOne st job).success + (processOne st job).failed
      = st.success + st.failed + 1 ∧
    (processOne st job).details = st.details ++ [detailOf job] := by
  rcases job with ⟨name, out⟩
  cases out with
  | error e => simp [processOne]; omega
  | ok v =>
    rcases v with ⟨outPath, success, sizeKb⟩
    by_cases h : success = true ∧ outPath ≠ ""
    · simp [processOne, h]; omega
    · simp [processOne, h]; omega

theorem foldl_processOne (jobs : List (String × JobOutcome)) :
    ∀ st : BatchStats,
      (jobs.foldl processOne st).total = st.total ∧
      (jobs.foldl processOne st).success + (jobs.foldl processOne st).failed
        = st.success + st.failed + jobs.length ∧
      (jobs.foldl processOne st).details = st.details ++ jobs.map detailOf := by
  induction jobs with
  | nil => intro st; simp
  | cons j t ih =>
    intro st
    obtain ⟨h1, h2, h3⟩ := processOne_fields st j
    obtain ⟨g1, g2, g3⟩ := ih (processOne st j)
    refine ⟨?_, ?_, ?_⟩
    · simpa [h1] using g1
    · simp only [List.foldl_cons, List.length_cons]
      omega
    · simp only [List.foldl_cons] at g3 ⊢
      rw [g3, h3, List.map_cons, List.append_assoc]
      rfl

theorem map_fst_detailOf (jobs : List (String × JobOutcome)) :
    (jobs.map detailOf).map Prod.fst = jobs.map Prod.fst := by
  induction jobs with
  | nil => rfl
  | cons j t ih =>
    rcases j with ⟨name, out⟩
    cases out with
    | error e => simp [detailOf, ih]
    | ok v =>
      rcases v with ⟨op, su, sk⟩
      by_cases h : su = true ∧ op ≠ ""
      · simp [detailOf, h, ih]
      · simp [detailOf, h, ih]

/-- C10: for N input jobs with the archive write succeeding, the report has
total = N, success + failed = N, and details of length N in input order; a
job whose compress_file raised is recorded in place with its message truncated
to 30 characters and does not stop later jobs from appearing. -/
theorem batch_report (jobs : List (String × JobOutcome)) (zipKb : Nat)
    (s : BatchStats) (h : process_files jobs (Except.ok zipKb) = Except.ok s) :
    s.total = jobs.length ∧
    s.success + s.failed = s.total ∧
    s.details.length = jobs.length ∧
    s.details.map Prod.fst = jobs.map Prod.fst ∧
    (∀ (i : Nat) (name msg : String),
      jobs[i]? = some (name, Except.error msg) →
      s.details[i]? = some (name, "Erreur: " ++ msg.take 30)) := by
  obtain ⟨f1, f2, f3⟩ := foldl_processOne jobs
    { total := jobs.length, success := 0, failed := 0, details := [], zipSizeKb := 0 }
  have hs : s = { jobs.foldl processOne
      { total := jobs.length, success := 0, failed := 0, details := [],
        zipSizeKb := 0 } with zipSizeKb := zipKb } := by
    have := h
    unfold process_files at this
    exact (Except.ok.injEq _ _).mp this |>.symm
  subst hs
  simp only at f1 f2 f3 ⊢
  refine ⟨f1, by rw [f2, f1]; simp, ?_, ?_, ?_⟩
  · simp [f3]
  · simp only [f3, List.nil_append]
    exact map_fst_detailOf jobs
  · intro i name msg hi
    simp only [f3, List.nil_append, List.getElem?_map, hi]
    rfl

/-- A three-job batch: one success, one crash with a 40-character message, one
oversized output. -/
def jobsW : List (String × JobOutcome) :=
  [("a.pdf", Except.ok ("out/a.pdf", true, 100)),
   ("b.png", Except.error "0123456789012345678901234567890123456789"),
   ("c.pdf", Except.ok ("", false, 300))]

def statsW : BatchStats :=
  { total := 3, success := 1, failed := 2,
    details := [("a.pdf", "OK (100 Ko)"),
                ("b.png", "Erreur: 012345678901234567890123456789"),
                ("c.pdf", "Trop gros (300 Ko)")],
    zipSizeKb := 42 }

set_option maxRecDepth 8000 in
theorem batch_report_witness :
    process_files jobsW (Except.ok 42) = Except.ok statsW ∧
    (statsW.total = jobsW.length ∧
     statsW.success + statsW.failed = statsW.total ∧
     statsW.details.length = jobsW.length ∧
     statsW.details.map Prod.fst = jobsW.map Prod.fst ∧
     (∀ (i : Nat) (name msg : String),
       jobsW[i]? = some (name, Except.error msg) →
       statsW.details[i]? = some (name, "Erreur: " ++ msg.take 30))) :=
  have hW : process_files jobsW (Except.ok 42) = Except.ok statsW := by rfl
  ⟨hW, batch_report jobsW 42 statsW hW⟩
